import Mathlib

/-!
A verification development for the devlog CLI (a developer-session logger).

The embedding mirrors the TypeScript sources:
* `src/command/status.ts` — `StatusCommand` (settings load, active-session
  replay, duration formatting, orphaned-session warning);
* `src/command/start.ts` — `StartCommand.execute`;
* `src/command/stop.ts` — `StopCommand.execute`;
* `src/command/config.ts` — `ConfigCommand.getValue` / `ConfigCommand.setValue`
  and its type-coercion ladder.

Modelling conventions:
* Instants (ISO-8601 timestamps / `Date.getTime()`) are `Int` epoch
  milliseconds; `Math.floor` of a quotient of integers is `Int.fdiv` and the
  JavaScript `%` remainder on integral values is `Int.tmod`.
* The session log file is `Option (List LogLine)`: `none` is an absent file;
  a present file is its sequence of non-blank lines, each line being either a
  line that parses as a JSON `LogEntry` (`LogLine.entry`) or a line that the
  per-line `JSON.parse` rejects (`LogLine.junk`).  Blank lines are removed by
  the source's line filter before parsing, which has the same effect on every
  computation as a skipped junk line.
* JSON values are `JsValue` with rational numbers (finite JavaScript numbers;
  non-finite values and double rounding are outside the model).
* A settings file on disk is `SettingsFile`: absent, corrupt (present but not
  readable as a JSON object), or a parsed JSON object kept as an ordered
  association list, as `JSON.parse` + property assignment preserves key order.
-/

namespace Devlog

/-- The two event kinds of `LogEntry.type` in `src/command/types.ts`. -/
inductive EntryType where
  | start
  | stop
deriving DecidableEq, Repr

/-- `LogEntry` from `src/command/types.ts`; `timestamp` is the instant the
ISO-8601 string denotes, in epoch milliseconds. -/
structure LogEntry where
  timestamp : Int
  type : EntryType
  message : String
  project : String
deriving DecidableEq, Repr

/-- One non-blank line of the session log file: either it parses as a JSON
`LogEntry` or the per-line `JSON.parse` rejects it (invalid JSON or not shaped
like a `LogEntry`). -/
inductive LogLine where
  | entry (e : LogEntry)
  | junk (raw : String)
deriving DecidableEq, Repr

/-- The body of the `for` loop of `getActiveSession` (`src/command/status.ts`
lines 60–73, duplicated in `start.ts` and `stop.ts`): a junk line is skipped by
the `catch`; an entry for another project is ignored; a `start` for the project
overwrites the pending slot and a `stop` clears it. -/
def sessionStep (currentProject : String) (lastStart : Option LogEntry)
    (line : LogLine) : Option LogEntry :=
  match line with
  | .junk _ => lastStart
  | .entry e =>
    if e.project = currentProject then
      match e.type with
      | .start => some e
      | .stop => none
    else lastStart

/-- `getActiveSession` (`src/command/status.ts` lines 50–76): `none` when the
file is absent; otherwise fold the pending-start slot over the lines in file
order, starting from `null`. -/
def getActiveSession (log : Option (List LogLine)) (currentProject : String) :
    Option LogEntry :=
  match log with
  | none => none
  | some lines => lines.foldl (sessionStep currentProject) none

/-- The successfully parsed entries of the log whose `project` equals `p`, in
file order. -/
def projEvents (lines : List LogLine) (p : String) : List LogEntry :=
  lines.filterMap fun l =>
    match l with
    | .entry e => if e.project = p then some e else none
    | .junk _ => none

/-- Whether a line is a successfully parsed `stop` entry for project `p`. -/
def stopFor (p : String) (l : LogLine) : Bool :=
  match l with
  | .entry e => e.project = p ∧ e.type = .stop
  | .junk _ => false

/-- Modelled from the spec's words: the `start` entries for project `p` that
have no subsequent `stop` entry for `p` later in the list, in file order. -/
def unstoppedStarts (p : String) : List LogLine → List LogEntry
  | [] => []
  | l :: ls =>
    let rest := unstoppedStarts p ls
    match l with
    | .entry e =>
      if e.project = p ∧ e.type = .start ∧ ¬ (ls.any (stopFor p)) then
        e :: rest
      else rest
    | .junk _ => rest

/-- Modelled from the spec's words (spec §3 "Session state"): the most recent
`start` entry for the project that has no subsequent `stop` entry for that
same project, scanning the full log in order; `none` for an absent file. -/
def activeSessionSpec (log : Option (List LogLine)) (p : String) :
    Option LogEntry :=
  match log with
  | none => none
  | some lines => (unstoppedStarts p lines).getLast?

/-- The effect of one parsed entry of the scanned project on the pending-start
slot, with the project test already discharged. -/
def replayStep (_lastStart : Option LogEntry) (e : LogEntry) : Option LogEntry :=
  match e.type with
  | .start => some e
  | .stop => none

/-- Replaying the project's own events over the pending-start slot. -/
def replayEvents (evs : List LogEntry) (acc : Option LogEntry) : Option LogEntry :=
  evs.foldl replayStep acc

/-- The last event, if it is a `start`. -/
def lastIfStart (evs : List LogEntry) : Option LogEntry :=
  match evs.getLast? with
  | some e =>
    match e.type with
    | .start => some e
    | .stop => none
  | none => none

/-- `calculateDurationMinutes` (`src/command/status.ts` lines 91–96):
`Math.floor((now − start) / 60000)` on epoch milliseconds. -/
def calculateDurationMinutes (startTime now : Int) : Int :=
  Int.fdiv (now - startTime) 60000

/-- `calculateDuration` (`src/command/status.ts` lines 78–89): hours by
`Math.floor(minutes / 60)`; the JavaScript `%` remainder is `Int.tmod`. -/
def calculateDuration (startTime now : Int) : String :=
  let minutes := calculateDurationMinutes startTime now
  let hours := Int.fdiv minutes 60
  if hours > 0 then
    let r := Int.tmod minutes 60
    s!"{hours}h {r}m"
  else
    s!"{minutes}m"

/-! ### JSON values

JavaScript/JSON values as they appear in settings documents and coerced
`config` values.  Numbers are rationals: the model covers finite JavaScript
numbers and ignores double rounding and the non-finite values
`Infinity`/`NaN` (a `NaN` produced by a failed string-to-number conversion is
represented as `none` of an `Option ℚ`). -/

mutual

inductive JsValue where
  | null
  | bool (b : Bool)
  | num (q : ℚ)
  | str (s : String)
  | arr (elems : JsArr)
  | obj (fields : JsObj)

/-- The elements of a JSON array, in order. -/
inductive JsArr where
  | nil
  | cons (v : JsValue) (rest : JsArr)

/-- The fields of a JSON object, in insertion order. -/
inductive JsObj where
  | nil
  | cons (key : String) (val : JsValue) (rest : JsObj)

end

/-- The opening-brace character, written via its code point. -/
def lbrace : Char := Char.ofNat 123

/-- The closing-brace character, written via its code point. -/
def rbrace : Char := Char.ofNat 125

/-- JavaScript whitespace as trimmed by `String.prototype.trim` (the common
ASCII whitespace, NBSP and the BOM; the rarer Unicode space separators are
outside the model). -/
def isJsWs (c : Char) : Bool :=
  c = ' ' ∨ c = '\t' ∨ c = '\n' ∨ c = '\r' ∨ c = Char.ofNat 11 ∨
    c = Char.ofNat 12 ∨ c = Char.ofNat 0xA0 ∨ c = Char.ofNat 0xFEFF

/-- `String.prototype.trim()`: strip leading and trailing whitespace. -/
def jsTrim (s : String) : String :=
  String.mk (((s.data.dropWhile isJsWs).reverse.dropWhile isJsWs).reverse)

/-- Value of a hexadecimal digit character. -/
def hexDigitVal (c : Char) : Option Nat :=
  if '0' ≤ c ∧ c ≤ '9' then some (c.toNat - '0'.toNat)
  else if 'a' ≤ c ∧ c ≤ 'f' then some (c.toNat - 'a'.toNat + 10)
  else if 'A' ≤ c ∧ c ≤ 'F' then some (c.toNat - 'A'.toNat + 10)
  else none

def isHexDigit (c : Char) : Bool := (hexDigitVal c).isSome

def isOctDigit (c : Char) : Bool := '0' ≤ c ∧ c ≤ '7'

def isBinDigit (c : Char) : Bool := c = '0' ∨ c = '1'

/-- Digits to a natural number in the given base. -/
def digitsVal (base : Nat) (ds : List Char) : Nat :=
  ds.foldl (fun a c => a * base + ((hexDigitVal c).getD 0)) 0

/-- The rational `mant * 10 ^ exp`, built directly as a fraction. -/
def scaledDecimal (mant : Nat) (exp : Int) : ℚ :=
  match exp with
  | .ofNat k => mkRat ((mant : Int) * (10 : Int) ^ k) 1
  | .negSucc k => mkRat (mant : Int) ((10 : Nat) ^ (k + 1))

/-- Exponent digits of a decimal literal: nonempty, all decimal digits. -/
def expDigits (ds : List Char) : Option Int :=
  if ds ≠ [] ∧ ds.all Char.isDigit then some (digitsVal 10 ds) else none

/-- Trailing exponent part of a decimal literal: empty means exponent `0`;
otherwise `e`/`E`, an optional sign, and at least one digit, with nothing
after it. -/
def parseExpPart : List Char → Option Int
  | [] => some 0
  | c :: cs =>
    if c = 'e' ∨ c = 'E' then
      match cs with
      | '+' :: ds => expDigits ds
      | '-' :: ds => (expDigits ds).map Int.neg
      | ds => expDigits ds
    else none

/-- An unsigned ECMAScript decimal literal: digits with an optional decimal
point (at least one digit on some side of it) and an optional exponent. -/
def parseDecimalBody (cs : List Char) : Option ℚ :=
  let (ip, rest) := cs.span Char.isDigit
  match rest with
  | '.' :: rest2 =>
    let (fp, rest3) := rest2.span Char.isDigit
    if ip.isEmpty ∧ fp.isEmpty then none
    else (parseExpPart rest3).map fun e =>
      scaledDecimal (digitsVal 10 (ip ++ fp)) (e - (fp.length : Int))
  | _ =>
    if ip.isEmpty then none
    else (parseExpPart rest).map fun e =>
      scaledDecimal (digitsVal 10 ip) e

/-- A decimal literal with an optional leading sign (the sign is only legal
for decimal literals, not for radix-prefixed ones). -/
def parseSignedDecimal (cs : List Char) : Option ℚ :=
  match cs with
  | '+' :: rest => parseDecimalBody rest
  | '-' :: rest => (parseDecimalBody rest).map Neg.neg
  | _ => parseDecimalBody cs

/-- ECMAScript `Number(string)` on finite inputs: `none` is `NaN`.  The
whole (whitespace-trimmed) string must be a numeric literal — decimal,
`0x`/`0o`/`0b` radix-prefixed, or empty (which converts to `0`).  The
non-finite literal `Infinity` is outside the model and maps to `none`. -/
def jsStringToNumber (s : String) : Option ℚ :=
  let t := jsTrim s
  if t = "" then some 0
  else
    match t.data with
    | '0' :: x :: rest =>
      if x = 'x' ∨ x = 'X' then
        if rest ≠ [] ∧ rest.all isHexDigit then some (digitsVal 16 rest) else none
      else if x = 'o' ∨ x = 'O' then
        if rest ≠ [] ∧ rest.all isOctDigit then some (digitsVal 8 rest) else none
      else if x = 'b' ∨ x = 'B' then
        if rest ≠ [] ∧ rest.all isBinDigit then some (digitsVal 2 rest) else none
      else parseSignedDecimal t.data
    | _ => parseSignedDecimal t.data

/-! ### JSON serialization (`JSON.stringify`, compact form) -/

/-- One character of a JSON string literal body; control characters below
U+0020 other than the common ones would be `\u` escapes and are left as-is by
the model. -/
def escapeChar (c : Char) : String :=
  if c = '"' then "\\\""
  else if c = '\\' then "\\\\"
  else if c = '\n' then "\\n"
  else if c = '\t' then "\\t"
  else if c = '\r' then "\\r"
  else String.singleton c

/-- A JSON string literal. -/
def jsonEncodeString (s : String) : String :=
  "\"" ++ String.join (s.data.map escapeChar) ++ "\""

/-- Decimal rendering of an integer scaled down by `10 ^ k`. -/
def decimalString (n : Int) (k : Nat) : String :=
  let sign := if n < 0 then "-" else ""
  let ds := (toString n.natAbs).data
  let ds :=
    if ds.length ≤ k then List.replicate (k + 1 - ds.length) '0' ++ ds
    else ds
  if k = 0 then sign ++ String.mk ds
  else
    sign ++ String.mk (ds.take (ds.length - k)) ++ "." ++
      String.mk (ds.drop (ds.length - k))

/-- JavaScript number printing for the finite decimal rationals the model
produces: integers print without a decimal point, other decimal fractions
with one, scaled by the least power of ten clearing the denominator.  (A
denominator not dividing a power of ten cannot come from a parsed
JSON/JavaScript literal; it gets a fraction fallback.) -/
def ratJsonString (q : ℚ) : String :=
  if q.den = 1 then toString q.num
  else
    match (List.range 40).find? (fun k => (10 : Nat) ^ k % q.den = 0) with
    | some k => decimalString (q.num * (((10 : Nat) ^ k / q.den : Nat) : Int)) k
    | none => toString q.num ++ "/" ++ toString q.den

mutual

/-- `JSON.stringify` in its compact (no-indent) form. -/
def jsonEncode : JsValue → String
  | .null => "null"
  | .bool b => if b then "true" else "false"
  | .num q => ratJsonString q
  | .str s => jsonEncodeString s
  | .arr vs => "[" ++ String.intercalate "," (jsonEncodeElems vs) ++ "]"
  | .obj kvs =>
    String.singleton lbrace ++ String.intercalate "," (jsonEncodeFields kvs) ++
      String.singleton rbrace

/-- The encodings of the elements of an array, in order. -/
def jsonEncodeElems : JsArr → List String
  | .nil => []
  | .cons v rest => jsonEncode v :: jsonEncodeElems rest

/-- The `"key":value` encodings of the fields of an object, in order. -/
def jsonEncodeFields : JsObj → List String
  | .nil => []
  | .cons k v rest => (jsonEncodeString k ++ ":" ++ jsonEncode v) :: jsonEncodeFields rest

end

/-! ### JSON parsing (`JSON.parse`) -/

/-- Skip JSON whitespace. -/
def skipWs : List Char → List Char
  | c :: cs => if c = ' ' ∨ c = '\n' ∨ c = '\t' ∨ c = '\r' then skipWs cs else c :: cs
  | [] => []

/-- Body of a JSON string literal after the opening quote, up to the closing
quote; `\u` escapes are outside the model and rejected. -/
def parseStringBody : List Char → Option (String × List Char)
  | [] => none
  | '"' :: rest => some ("", rest)
  | '\\' :: c :: rest =>
    let esc : Option Char :=
      if c = '"' then some '"'
      else if c = '\\' then some '\\'
      else if c = '/' then some '/'
      else if c = 'n' then some '\n'
      else if c = 't' then some '\t'
      else if c = 'r' then some '\r'
      else if c = 'b' then some (Char.ofNat 8)
      else if c = 'f' then some (Char.ofNat 12)
      else none
    match esc with
    | some ch => (parseStringBody rest).map fun p => (String.singleton ch ++ p.1, p.2)
    | none => none
  | '\\' :: [] => none
  | c :: rest => (parseStringBody rest).map fun p => (String.singleton c ++ p.1, p.2)

/-- Fraction part of a JSON number: absent, or a point followed by at least
one digit. -/
def parseFracPart : List Char → Option (List Char × List Char)
  | '.' :: rest =>
    let (fp, r) := rest.span Char.isDigit
    if fp.isEmpty then none else some (fp, r)
  | cs => some ([], cs)

/-- Exponent part of a JSON number: absent, or `e`/`E`, an optional sign and
at least one digit. -/
def parseJsonExpPart : List Char → Option (Int × List Char)
  | c :: cs =>
    if c = 'e' ∨ c = 'E' then
      let (sgn, cs2) : Int × List Char :=
        match cs with
        | '+' :: r => (1, r)
        | '-' :: r => (-1, r)
        | r => (1, r)
      let (ds, r) := cs2.span Char.isDigit
      if ds.isEmpty then none else some (sgn * (digitsVal 10 ds : Int), r)
    else some (0, c :: cs)
  | [] => some (0, [])

/-- A JSON number: optional minus, integer part without leading zeros,
optional fraction and exponent. -/
def parseJsonNumber (cs : List Char) : Option (ℚ × List Char) :=
  let (neg, cs1) : Bool × List Char :=
    match cs with
    | '-' :: r => (true, r)
    | _ => (false, cs)
  let (ip, rest) := cs1.span Char.isDigit
  if ip.isEmpty then none
  else if 1 < ip.length ∧ ip.headD 'x' = '0' then none
  else
    match parseFracPart rest with
    | none => none
    | some (fp, rest2) =>
      match parseJsonExpPart rest2 with
      | none => none
      | some (e, rest3) =>
        let mag : ℚ := scaledDecimal (digitsVal 10 (ip ++ fp)) (e - (fp.length : Int))
        some (if neg then -mag else mag, rest3)

mutual

/-- A JSON value, by recursive descent; the fuel bounds nesting depth and is
in practice at least the input length. -/
def parseJsonValue : Nat → List Char → Option (JsValue × List Char)
  | 0, _ => none
  | Nat.succ fuel, cs0 =>
    match skipWs cs0 with
    | [] => none
    | c :: rest =>
      if c = '"' then (parseStringBody rest).map fun p => (JsValue.str p.1, p.2)
      else if c = '[' then
        match skipWs rest with
        | ']' :: r => some (JsValue.arr .nil, r)
        | rest2 => (parseJsonElems fuel rest2).map fun p => (JsValue.arr p.1, p.2)
      else if c = lbrace then
        match skipWs rest with
        | [] => none
        | c2 :: r =>
          if c2 = rbrace then some (JsValue.obj .nil, r)
          else (parseJsonMembers fuel (c2 :: r)).map fun p => (JsValue.obj p.1, p.2)
      else if c = 't' then
        match c :: rest with
        | 't' :: 'r' :: 'u' :: 'e' :: r => some (JsValue.bool true, r)
        | _ => none
      else if c = 'f' then
        match c :: rest with
        | 'f' :: 'a' :: 'l' :: 's' :: 'e' :: r => some (JsValue.bool false, r)
        | _ => none
      else if c = 'n' then
        match c :: rest with
        | 'n' :: 'u' :: 'l' :: 'l' :: r => some (JsValue.null, r)
        | _ => none
      else (parseJsonNumber (c :: rest)).map fun p => (JsValue.num p.1, p.2)

/-- Comma-separated array elements up to the closing bracket. -/
def parseJsonElems : Nat → List Char → Option (JsArr × List Char)
  | 0, _ => none
  | Nat.succ fuel, cs =>
    match parseJsonValue fuel cs with
    | none => none
    | some (v, rest) =>
      match skipWs rest with
      | ',' :: r => (parseJsonElems fuel r).map fun p => (JsArr.cons v p.1, p.2)
      | ']' :: r => some (JsArr.cons v JsArr.nil, r)
      | _ => none

/-- Comma-separated `"key": value` members up to the closing brace. -/
def parseJsonMembers : Nat → List Char → Option (JsObj × List Char)
  | 0, _ => none
  | Nat.succ fuel, cs =>
    match skipWs cs with
    | c :: rest =>
      if c = '"' then
        match parseStringBody rest with
        | none => none
        | some (k, r1) =>
          match skipWs r1 with
          | ':' :: r2 =>
            match parseJsonValue fuel r2 with
            | none => none
            | some (v, r3) =>
              match skipWs r3 with
              | ',' :: r4 => (parseJsonMembers fuel r4).map fun p => (JsObj.cons k v p.1, p.2)
              | c5 :: r5 => if c5 = rbrace then some (JsObj.cons k v JsObj.nil, r5) else none
              | [] => none
          | _ => none
      else none
    | [] => none

end

/-- `JSON.parse`: the whole string must be one JSON value surrounded only by
whitespace. -/
def jsonParse (s : String) : Option JsValue :=
  match parseJsonValue (s.length + 2) s.data with
  | some (v, rest) => if (skipWs rest).isEmpty then some v else none
  | none => none

/-! ### Settings documents and the `config` command
(`src/command/config.ts`, `ConfigCommand.getValue` / `ConfigCommand.setValue`) -/

/-- A settings document: a JSON object kept in key order (`JSON.parse` +
property assignment preserve key order). -/
abbrev SettingsDoc := JsObj

/-- A settings file on disk: absent, present but not readable as a JSON
object (corrupt), or a parsed JSON object. -/
inductive SettingsFile where
  | absent
  | corrupt (raw : String)
  | doc (fields : SettingsDoc)

/-- First-match lookup of a key in a JSON object, as JavaScript property
access / the `in` operator. -/
def lookupKey (d : SettingsDoc) (k : String) : Option JsValue :=
  match d with
  | .nil => none
  | .cons k' v rest => if k' = k then some v else lookupKey rest k

/-- JavaScript property assignment `settings[key] = value` on a JSON object:
an existing key is updated in place, a new key is appended. -/
def setKey (d : SettingsDoc) (k : String) (v : JsValue) : SettingsDoc :=
  match d with
  | .nil => .cons k v .nil
  | .cons k' v' rest =>
    if k' = k then .cons k v rest else .cons k' v' (setKey rest k v)

/-- `value.startsWith("[") || value.startsWith("{")` of the coercion
ladder. -/
def startsWithBracketOrBrace (value : String) : Bool :=
  match value.data with
  | c :: _ => c = '[' ∨ c = lbrace
  | [] => false

/-- The type-coercion ladder of `ConfigCommand.setValue` (`src/command/config.ts`
lines 157–169), applied in order with first match winning: the literals
`true`/`false`/`null`; then any string with `Number(value)` not `NaN`; then a
string starting with `[` or an opening brace is JSON-parsed, keeping the raw
string if that fails; else the raw string. -/
def coerceValue (value : String) : JsValue :=
  if value = "true" then .bool true
  else if value = "false" then .bool false
  else if value = "null" then .null
  else
    match jsStringToNumber value with
    | some q => .num q
    | none =>
      if startsWithBracketOrBrace value then
        match jsonParse value with
        | some v => v
        | none => .str value
      else .str value

/-- `ConfigCommand.getValue` (`src/command/config.ts` lines 120–138): not-found
for an absent file or a missing key, an error message for a file that cannot
be read as a JSON object, else `key: <JSON-encoded value>`. -/
def getValue (file : SettingsFile) (key : String) : String :=
  match file with
  | .absent => "Setting '" ++ key ++ "' not found"
  | .corrupt _ => "Error reading settings file"
  | .doc kvs =>
    match lookupKey kvs key with
    | none => "Setting '" ++ key ++ "' not found"
    | some v => key ++ ": " ++ jsonEncode v

/-- `ConfigCommand.setValue` (`src/command/config.ts` lines 140–177): load the
existing document (absent or corrupt becomes the empty object), coerce the raw
value, assign the key, write the document back, and report.  Directory
creation and pretty-printing affect only bytes on disk, not the document
value. -/
def setValue (file : SettingsFile) (key value : String) (isProjectSettings : Bool) :
    String × SettingsFile :=
  let settings : SettingsDoc :=
    match file with
    | .doc kvs => kvs
    | _ => .nil
  let parsedValue := coerceValue value
  let settingsType := if isProjectSettings then "project" else "global"
  ("Set " ++ settingsType ++ " setting " ++ key ++ ": " ++ jsonEncode parsedValue,
    .doc (setKey settings key parsedValue))

/-! ### The `status` command (`src/command/status.ts`, `StatusCommand`) -/

/-- `StatusCommand.loadSettings` (`src/command/status.ts` lines 37–48): an
absent or unparseable settings file yields the empty object. -/
def loadSettings : SettingsFile → SettingsDoc
  | .absent => .nil
  | .corrupt _ => .nil
  | .doc kvs => kvs

/-- JavaScript truthiness of a JSON value (`0`, `false`, `null` and the empty
string are falsy). -/
def jsTruthy : JsValue → Bool
  | .null => false
  | .bool b => b
  | .num q => q ≠ 0
  | .str s => s ≠ ""
  | .arr _ => true
  | .obj _ => true

/-- The JavaScript `||` operator over an optionally-present value:
`undefined` or a falsy value selects the default. -/
def jsOr (v : Option JsValue) (d : JsValue) : JsValue :=
  match v with
  | some x => if jsTruthy x then x else d
  | none => d

/-- JavaScript `ToNumber` on a JSON value (`none` is `NaN`).  Arrays convert
through their string form; the model covers the flat cases that can reach the
threshold comparison and maps deeper nesting to `NaN`. -/
def jsToNumber : JsValue → Option ℚ
  | .null => some 0
  | .bool b => some (if b then 1 else 0)
  | .num q => some q
  | .str s => jsStringToNumber s
  | .arr .nil => some 0
  | .arr (.cons (.num q) .nil) => some q
  | .arr (.cons (.str s) .nil) => jsStringToNumber s
  | .arr _ => none
  | .obj _ => none

/-- The comparison `durationMinutes > orphanedThreshold` of
`src/command/status.ts` line 30, with JavaScript numeric coercion of the
right-hand side; a `NaN` comparison is false. -/
def jsGtNum (m : Int) (v : JsValue) : Bool :=
  match jsToNumber v with
  | some q => (m : ℚ) > q
  | none => false

/-- `Math.floor(orphanedThreshold / 60)` as printed in the warning line of
`src/command/status.ts` line 31: `⌊q / 60⌋` computed on the fraction
(`floorThresholdHours_eq_floor` below checks the identity). -/
def floorThresholdHours (v : JsValue) : String :=
  match jsToNumber v with
  | some q => toString (Int.fdiv q.num (60 * (q.den : Int)))
  | none => "NaN"

/-- `StatusCommand.execute` (`src/command/status.ts` lines 14–35). -/
def statusExecute (currentDir : String) (settingsFile : SettingsFile)
    (log : Option (List LogLine)) (now : Int) : String :=
  let settings := loadSettings settingsFile
  let orphanedThreshold := jsOr (lookupKey settings "orphanedSessionThreshold") (.num 240)
  match getActiveSession log currentDir with
  | none => "No active session"
  | some activeSession =>
    let duration := calculateDuration activeSession.timestamp now
    let durationMinutes := calculateDurationMinutes activeSession.timestamp now
    let base := "Active session: \"" ++ activeSession.message ++ "\"\nDuration: "
      ++ duration ++ "\nProject: " ++ currentDir
    if jsGtNum durationMinutes orphanedThreshold then
      base ++ "\n⚠️  Warning: Session has been active for " ++ duration
        ++ " (>" ++ floorThresholdHours orphanedThreshold ++ "h threshold)"
    else base

/-! ### The `start` and `stop` commands
(`src/command/start.ts` / `src/command/stop.ts`) -/

/-- `StartCommand.execute` (`src/command/start.ts` lines 7–39).  The returned
pair is the output string and the session log file afterwards; `now` is both
the clock reading and the timestamp recorded in a new entry. -/
def startExecute (message currentDir : String) (now : Int)
    (log : Option (List LogLine)) : String × Option (List LogLine) :=
  if jsTrim message = "" then
    ("Error: Message is required for start command", log)
  else
    match getActiveSession log currentDir with
    | some activeSession =>
      let duration := calculateDuration activeSession.timestamp now
      ("Warning: Active session already exists for this project.\nCurrent session: \""
        ++ activeSession.message ++ "\" (started " ++ duration ++ " ago)", log)
    | none =>
      let logEntry : LogEntry :=
        { timestamp := now, type := .start, message := jsTrim message,
          project := currentDir }
      ("Started session: \"" ++ message ++ "\"",
        some ((log.getD []) ++ [.entry logEntry]))

/-- `StopCommand.execute` (`src/command/stop.ts` lines 7–33). -/
def stopExecute (message currentDir : String) (now : Int)
    (log : Option (List LogLine)) : String × Option (List LogLine) :=
  if jsTrim message = "" then
    ("Error: Message is required for stop command", log)
  else
    match getActiveSession log currentDir with
    | none => ("No active session to stop", log)
    | some activeSession =>
      let logEntry : LogEntry :=
        { timestamp := now, type := .stop, message := jsTrim message,
          project := currentDir }
      let duration := calculateDuration activeSession.timestamp now
      ("Stopped session: \"" ++ message ++ "\" (duration: " ++ duration ++ ")",
        some ((log.getD []) ++ [.entry logEntry]))

/-- The log lines that are not parsed entries of project `a`: junk lines and
entries of other projects.  Two logs "differ only in entries for `a`" when
their views under this projection agree. -/
def nonProjectView (a : String) (lines : List LogLine) : List LogLine :=
  lines.filter fun l =>
    match l with
    | .entry e => e.project ≠ a
    | .junk _ => true

/-! ### Lemmas about the session replay -/

theorem foldl_sessionStep_eq (p : String) (lines : List LogLine) :
    ∀ acc, lines.foldl (sessionStep p) acc = replayEvents (projEvents lines p) acc := by
  induction lines with
  | nil => intro acc; rfl
  | cons l ls ih =>
    intro acc
    cases l with
    | junk s => simpa [projEvents, sessionStep] using ih acc
    | entry e =>
      by_cases he : e.project = p
      · cases ht : e.type <;>
          simp [projEvents, sessionStep, he, ht, replayEvents, replayStep, ih]
      · simp [projEvents, sessionStep, he, ih]

theorem replayEvents_eq_lastIfStart (evs : List LogEntry) :
    replayEvents evs none = lastIfStart evs := by
  induction evs using List.reverseRecOn with
  | nil => rfl
  | append_singleton evs e ih =>
    cases ht : e.type <;>
      simp [replayEvents, List.foldl_append, replayStep, ht, lastIfStart,
        List.getLast?_concat]

theorem getActiveSession_eq_lastIfStart (lines : List LogLine) (p : String) :
    getActiveSession (some lines) p = lastIfStart (projEvents lines p) := by
  rw [getActiveSession, foldl_sessionStep_eq, replayEvents_eq_lastIfStart]

theorem unstoppedStarts_eq_projEvents_of_noStop (p : String) (ls : List LogLine)
    (h : ls.any (stopFor p) = false) : unstoppedStarts p ls = projEvents ls p := by
  induction ls with
  | nil => rfl
  | cons l ls ih =>
    rw [List.any_cons, Bool.or_eq_false_iff] at h
    obtain ⟨h1, h2⟩ := h
    cases l with
    | junk s => simp [unstoppedStarts, projEvents, ih h2]
    | entry e =>
      by_cases he : e.project = p
      · cases ht : e.type
        · simp [unstoppedStarts, projEvents, he, ht, h2, ih h2]
        · exact absurd h1 (by simp [stopFor, he, ht])
      · simp [unstoppedStarts, projEvents, he, ih h2]

theorem projEvents_ne_nil_of_stop (p : String) (ls : List LogLine)
    (h : ls.any (stopFor p) = true) : projEvents ls p ≠ [] := by
  induction ls with
  | nil => simp at h
  | cons l ls ih =>
    rw [List.any_cons, Bool.or_eq_true] at h
    cases l with
    | junk s =>
      rcases h with h1 | h2
      · simp [stopFor] at h1
      · simpa [projEvents] using ih h2
    | entry e =>
      by_cases he : e.project = p
      · simp [projEvents, he]
      · rcases h with h1 | h2
        · rw [stopFor] at h1
          simp [he] at h1
        · simpa [projEvents, he] using ih h2

theorem lastIfStart_cons_of_ne_nil (e : LogEntry) (E : List LogEntry)
    (h : E ≠ []) : lastIfStart (e :: E) = lastIfStart E := by
  cases E with
  | nil => exact absurd rfl h
  | cons x xs => rw [lastIfStart, List.getLast?_cons_cons, lastIfStart]

theorem all_start_of_noStop (p : String) (ls : List LogLine)
    (h : ls.any (stopFor p) = false) :
    ∀ e ∈ projEvents ls p, e.type = .start := by
  induction ls with
  | nil => simp [projEvents]
  | cons l ls ih =>
    rw [List.any_cons, Bool.or_eq_false_iff] at h
    obtain ⟨h1, h2⟩ := h
    cases l with
    | junk s => simpa [projEvents] using ih h2
    | entry e =>
      by_cases he : e.project = p
      · intro x hx
        rw [projEvents, List.filterMap_cons] at hx
        simp only [he, if_pos, List.mem_cons] at hx
        rcases hx with rfl | hx
        · rw [stopFor] at h1
          cases ht : x.type
          · rfl
          · simp [he, ht] at h1
        · exact ih h2 x hx
      · simpa [projEvents, he] using ih h2

theorem lastIfStart_eq_getLast?_of_all_start (E : List LogEntry)
    (h : ∀ e ∈ E, e.type = .start) : lastIfStart E = E.getLast? := by
  cases hE : E.getLast? with
  | none => simp [lastIfStart, hE]
  | some x =>
    have hx : x ∈ E := List.mem_of_mem_getLast? hE
    simp [lastIfStart, hE, h x hx]

theorem unstoppedStarts_eq_nil_of_projEvents_nil (p : String) (ls : List LogLine)
    (h : projEvents ls p = []) : unstoppedStarts p ls = [] := by
  induction ls with
  | nil => rfl
  | cons l ls ih =>
    cases l with
    | junk s =>
      rw [projEvents, List.filterMap_cons] at h
      simp only at h
      simp [unstoppedStarts, ih h]
    | entry e =>
      by_cases he : e.project = p
      · rw [projEvents, List.filterMap_cons] at h
        simp [he] at h
      · rw [projEvents, List.filterMap_cons] at h
        simp only [he, if_neg, ite_false] at h
        simp [unstoppedStarts, he, ih h]

theorem unstoppedStarts_getLast?_eq (p : String) (lines : List LogLine) :
    (unstoppedStarts p lines).getLast? = lastIfStart (projEvents lines p) := by
  induction lines with
  | nil => rfl
  | cons l ls ih =>
    cases l with
    | junk s => simpa [unstoppedStarts, projEvents] using ih
    | entry e =>
      by_cases he : e.project = p
      · have hp : projEvents (LogLine.entry e :: ls) p = e :: projEvents ls p := by
          simp [projEvents, he]
        cases ht : e.type
        · -- a start entry for the project
          by_cases hs : ls.any (stopFor p) = true
          · have hu : unstoppedStarts p (LogLine.entry e :: ls) = unstoppedStarts p ls := by
              simp [unstoppedStarts, hs]
            rw [hu, hp, ih,
              lastIfStart_cons_of_ne_nil _ _ (projEvents_ne_nil_of_stop p ls hs)]
          · have hs' : ls.any (stopFor p) = false := by
              simpa using hs
            have hu : unstoppedStarts p (LogLine.entry e :: ls)
                = e :: unstoppedStarts p ls := by
              simp [unstoppedStarts, he, ht, hs']
            rw [hu, hp, unstoppedStarts_eq_projEvents_of_noStop p ls hs']
            symm
            apply lastIfStart_eq_getLast?_of_all_start
            intro x hx
            rcases List.mem_cons.mp hx with rfl | hx
            · exact ht
            · exact all_start_of_noStop p ls hs' x hx
        · -- a stop entry for the project
          have hu : unstoppedStarts p (LogLine.entry e :: ls) = unstoppedStarts p ls := by
            simp [unstoppedStarts, ht]
          rw [hu, hp, ih]
          cases hE : projEvents ls p with
          | nil => simp [lastIfStart, ht]
          | cons x xs => rw [lastIfStart_cons_of_ne_nil e (x :: xs) (by simp)]
      · have hp : projEvents (LogLine.entry e :: ls) p = projEvents ls p := by
          simp [projEvents, he]
        have hu : unstoppedStarts p (LogLine.entry e :: ls) = unstoppedStarts p ls := by
          simp [unstoppedStarts, he]
        rw [hu, hp, ih]

theorem getActiveSession_eq_activeSessionSpec (log : Option (List LogLine))
    (p : String) : getActiveSession log p = activeSessionSpec log p := by
  cases log with
  | none => rfl
  | some lines =>
    rw [getActiveSession_eq_lastIfStart, activeSessionSpec,
      unstoppedStarts_getLast?_eq]

theorem projEvents_cons_junk (s : String) (ls : List LogLine) (b : String) :
    projEvents (LogLine.junk s :: ls) b = projEvents ls b := rfl

theorem projEvents_cons_entry (e : LogEntry) (ls : List LogLine) (b : String) :
    projEvents (LogLine.entry e :: ls) b =
      if e.project = b then e :: projEvents ls b else projEvents ls b := by
  by_cases h : e.project = b <;> simp [projEvents, h]

theorem nonProjectView_cons_junk (a s : String) (ls : List LogLine) :
    nonProjectView a (LogLine.junk s :: ls) = LogLine.junk s :: nonProjectView a ls := by
  simp [nonProjectView, List.filter_cons]

theorem nonProjectView_cons_entry (a : String) (e : LogEntry) (ls : List LogLine) :
    nonProjectView a (LogLine.entry e :: ls) =
      if e.project = a then nonProjectView a ls
      else LogLine.entry e :: nonProjectView a ls := by
  by_cases h : e.project = a <;> simp [nonProjectView, List.filter_cons, h]

theorem projEvents_nonProjectView (a b : String) (hab : b ≠ a)
    (lines : List LogLine) :
    projEvents (nonProjectView a lines) b = projEvents lines b := by
  induction lines with
  | nil => rfl
  | cons l ls ih =>
    cases l with
    | junk s =>
      rw [nonProjectView_cons_junk, projEvents_cons_junk, projEvents_cons_junk]
      exact ih
    | entry e =>
      rw [nonProjectView_cons_entry, projEvents_cons_entry]
      by_cases he : e.project = a
      · have hb : ¬ e.project = b := by
          rw [he]
          exact fun hba => hab hba.symm
        rw [if_pos he, if_neg hb]
        exact ih
      · rw [if_neg he, projEvents_cons_entry]
        by_cases hb : e.project = b
        · rw [if_pos hb, if_pos hb, ih]
        · rw [if_neg hb, if_neg hb]
          exact ih

/-! ### Lemmas about settings and numbers -/

theorem lookupKey_setKey_self (d : SettingsDoc) (k : String) (v : JsValue) :
    lookupKey (setKey d k v) k = some v := by
  match d with
  | .nil => simp [setKey, lookupKey]
  | .cons k' v' rest =>
    by_cases h : k' = k
    · simp [setKey, lookupKey, h]
    · simp only [setKey, lookupKey, h, if_false, if_neg h]
      exact lookupKey_setKey_self rest k v

theorem duration_tmod_eq_emod (m : Int) (h : Int.fdiv m 60 > 0) :
    Int.tmod m 60 = m % 60 := by
  rw [Int.fdiv_eq_ediv _ (by norm_num)] at h
  have h0 : 0 ≤ m := by
    by_contra hneg
    push_neg at hneg
    omega
  exact Int.tmod_eq_emod h0 (by norm_num)

theorem floorThresholdHours_eq_floor (q : ℚ) :
    floorThresholdHours (.num q) = toString ⌊q / 60⌋ := by
  show toString (Int.fdiv q.num (60 * (q.den : Int))) = toString ⌊q / 60⌋
  congr 1
  have h0 : ((q.den : ℚ)) ≠ 0 := by
    exact_mod_cast q.den_nz
  have hden : q / 60 = ((q.num : ℚ) / ((60 * q.den : Nat) : ℚ)) := by
    push_cast
    rw [div_eq_div_iff (by norm_num) (by positivity)]
    calc q * (60 * (q.den : ℚ)) = q * (q.den : ℚ) * 60 := by ring
    _ = (q.num : ℚ) * 60 := by rw [Rat.mul_den_eq_num]
  rw [hden, Rat.floor_intCast_div_natCast q.num (60 * q.den),
    Int.fdiv_eq_ediv _ (by positivity)]
  norm_num

/-! ### The claims -/

/-- C1: for every log and project key, `getActiveSession` returns the most
recent `start` entry for that project not followed in file order by a `stop`
entry for the same project; it returns `none` for an absent or empty file and
when every such `start` is followed by a `stop`.  In particular a log of
`start(t1)` then `stop(t2)` for `P` yields `none`, and `start(t1)` alone
yields that entry. -/
theorem c1_active_session_resolution :
    (∀ (log : Option (List LogLine)) (p : String),
        getActiveSession log p = activeSessionSpec log p) ∧
    (∀ p : String, getActiveSession none p = none) ∧
    (∀ p : String, getActiveSession (some []) p = none) ∧
    (∀ (t1 t2 : Int) (m1 m2 P : String),
        getActiveSession (some [.entry ⟨t1, .start, m1, P⟩,
          .entry ⟨t2, .stop, m2, P⟩]) P = none) ∧
    (∀ (t1 : Int) (m1 P : String),
        getActiveSession (some [.entry ⟨t1, .start, m1, P⟩]) P
          = some ⟨t1, .start, m1, P⟩) := by
  refine ⟨getActiveSession_eq_activeSessionSpec, fun p => rfl, fun p => rfl,
    ?_, ?_⟩
  · intro t1 t2 m1 m2 P
    simp [getActiveSession, sessionStep]
  · intro t1 m1 P
    simp [getActiveSession, sessionStep]

/-- C2: inserting a line that fails to parse as JSON (a blank line is removed
even earlier, by the line filter) at any position of the log does not change
active-session resolution for any project; the scan is a total function and
never raises. -/
theorem c2_malformed_line_tolerance (pre post : List LogLine) (s p : String) :
    getActiveSession (some (pre ++ LogLine.junk s :: post)) p
      = getActiveSession (some (pre ++ post)) p := by
  rw [getActiveSession, getActiveSession, List.foldl_append, List.foldl_append,
    List.foldl_cons]
  rfl

/-- C8: `elapsedMinutes` is the floor of the elapsed seconds divided by 60
with no clamping (negative when the start lies in the future), and the label
is `"{h}h {m mod 60}m"` when `h = ⌊m / 60⌋ > 0` — with the non-negative
modulo that pairs with floor division — and `"{m}m"` otherwise. -/
theorem c8_duration_computation :
    (∀ startTime now : Int, calculateDurationMinutes startTime now
        = ⌊(((now - startTime : Int) : ℚ) / 1000) / 60⌋) ∧
    (∀ startTime now : Int, now < startTime →
        calculateDurationMinutes startTime now < 0) ∧
    (∀ startTime now : Int,
        calculateDuration startTime now =
          (let m := calculateDurationMinutes startTime now
           let h := Int.fdiv m 60
           if h > 0 then s!"{h}h {m % 60}m" else s!"{m}m")) := by
  refine ⟨?_, ?_, ?_⟩
  · intro s n
    have h1 : (((n - s : Int) : ℚ) / 1000) / 60
        = ((n - s : Int) : ℚ) / ((60000 : Nat) : ℚ) := by
      push_cast
      ring
    rw [calculateDurationMinutes, h1, Rat.floor_intCast_div_natCast,
      Int.fdiv_eq_ediv _ (by norm_num)]
    norm_num
  · intro s n h
    rw [calculateDurationMinutes, Int.fdiv_eq_ediv _ (by norm_num)]
    omega
  · intro s n
    show (if Int.fdiv (calculateDurationMinutes s n) 60 > 0 then _ else _) = _
    by_cases h : Int.fdiv (calculateDurationMinutes s n) 60 > 0
    · rw [if_pos h, if_pos h, duration_tmod_eq_emod _ h]
    · rw [if_neg h, if_neg h]

/-- Witness for `c8_duration_computation`: one minute before the recorded
start, the elapsed minutes are negative. -/
theorem c8_duration_computation_witness :
    calculateDurationMinutes 60000 0 < 0 :=
  c8_duration_computation.2.1 60000 0 (by decide)

/-- C9: for distinct projects `a ≠ b`, two logs that agree outside the
entries of project `a` give the same active session for `b`: events of one
project never affect another project's resolution. -/
theorem c9_project_isolation (a b : String) (l1 l2 : List LogLine)
    (hab : b ≠ a) (h : nonProjectView a l1 = nonProjectView a l2) :
    getActiveSession (some l1) b = getActiveSession (some l2) b := by
  rw [getActiveSession_eq_lastIfStart, getActiveSession_eq_lastIfStart,
    ← projEvents_nonProjectView a b hab l1, ← projEvents_nonProjectView a b hab l2,
    h]

/-- Witness for `c9_project_isolation`: a start for project `A` is invisible
to project `B`. -/
theorem c9_project_isolation_witness :
    getActiveSession (some [LogLine.entry ⟨0, EntryType.start, "m", "A"⟩]) "B"
      = getActiveSession (some []) "B" :=
  c9_project_isolation "A" "B" [LogLine.entry ⟨0, EntryType.start, "m", "A"⟩] []
    (by decide) (by decide)

/-- C3: `status` answers `No active session` without a session; with one it
reports message, duration and project, and appends the warning line exactly
when `elapsedMinutes > threshold`, where the threshold is the global
`orphanedSessionThreshold` or 240, and the warning states the elapsed label
and `>{floor(threshold/60)}h threshold`; at 300 elapsed minutes under the
default threshold the output carries `5h 0m` and the `>4h threshold` note. -/
theorem c3_status_report :
    (∀ (sf : SettingsFile) (log : Option (List LogLine)) (p : String) (now : Int),
        getActiveSession log p = none →
          statusExecute p sf log now = "No active session") ∧
    (∀ (sf : SettingsFile) (log : Option (List LogLine)) (p : String) (now : Int)
        (e : LogEntry), getActiveSession log p = some e →
          statusExecute p sf log now =
            (let τ := jsOr (lookupKey (loadSettings sf) "orphanedSessionThreshold")
              (.num 240)
             let duration := calculateDuration e.timestamp now
             let base := "Active session: \"" ++ e.message ++ "\"\nDuration: "
               ++ duration ++ "\nProject: " ++ p
             if jsGtNum (calculateDurationMinutes e.timestamp now) τ then
               base ++ "\n⚠️  Warning: Session has been active for " ++ duration
                 ++ " (>" ++ floorThresholdHours τ ++ "h threshold)"
             else base)) ∧
    (∀ q : ℚ, floorThresholdHours (.num q) = toString ⌊q / 60⌋) ∧
    statusExecute "/p" .absent
        (some [.entry ⟨0, .start, "Working on authentication", "/p"⟩])
        (300 * 60000)
      = "Active session: \"Working on authentication\"\nDuration: 5h 0m\nProject: /p\n⚠️  Warning: Session has been active for 5h 0m (>4h threshold)" := by
  refine ⟨?_, ?_, floorThresholdHours_eq_floor, by decide⟩
  · intro sf log p now h
    simp only [statusExecute, h]
  · intro sf log p now e h
    simp only [statusExecute, h]

/-- Witness for `c3_status_report`: the no-session answer and a 30-minute
session report under the default threshold. -/
theorem c3_status_report_witness :
    statusExecute "/q" SettingsFile.absent none 0 = "No active session" ∧
    statusExecute "/p" SettingsFile.absent
        (some [.entry ⟨0, .start, "w", "/p"⟩]) (30 * 60000)
      = "Active session: \"w\"\nDuration: 30m\nProject: /p" := by
  constructor
  · exact c3_status_report.1 SettingsFile.absent none "/q" 0 rfl
  · rw [c3_status_report.2.1 SettingsFile.absent
      (some [.entry ⟨0, .start, "w", "/p"⟩]) "/p" (30 * 60000)
      ⟨0, .start, "w", "/p"⟩ (by decide)]
    decide

/-- C4: `set(path, k, v)` then `get(path, k)` answers `k: <JSON(coerce(v))>`
for every prior file state, with `coerce` the first-match coercion ladder
(pinned here at representative inputs of each rung). -/
theorem c4_settings_round_trip :
    (∀ (file : SettingsFile) (k v : String) (isProj : Bool),
        getValue (setValue file k v isProj).2 k
          = k ++ ": " ++ jsonEncode (coerceValue v)) ∧
    coerceValue "true" = .bool true ∧
    coerceValue "false" = .bool false ∧
    coerceValue "null" = .null ∧
    jsonEncode (coerceValue "42") = "42" ∧
    jsonEncode (coerceValue "hello") = "\"hello\"" ∧
    jsonEncode (coerceValue "[\"node_modules\", \".git\", \"dist\"]")
      = "[\"node_modules\",\".git\",\"dist\"]" := by
  refine ⟨?_, rfl, rfl, rfl, by decide, by decide, by decide⟩
  intro file k v isProj
  simp only [setValue, getValue, lookupKey_setKey_self]

/-- C5: a `start` against an already-active session returns the warning
carrying the existing session's message and elapsed label and leaves the
session log unchanged. -/
theorem c5_start_rejected_when_active (message currentDir : String) (now : Int)
    (log : Option (List LogLine)) (e : LogEntry)
    (hm : ¬ jsTrim message = "") (h : getActiveSession log currentDir = some e) :
    startExecute message currentDir now log =
      ("Warning: Active session already exists for this project.\nCurrent session: \""
        ++ e.message ++ "\" (started " ++ calculateDuration e.timestamp now
        ++ " ago)", log) := by
  simp only [startExecute, if_neg hm, h]

/-- Witness for `c5_start_rejected_when_active`: a second start one minute
into a session is rejected without touching the log. -/
theorem c5_start_rejected_when_active_witness :
    startExecute "new" "/p" 60000 (some [.entry ⟨0, .start, "old", "/p"⟩]) =
      ("Warning: Active session already exists for this project.\nCurrent session: \"old\" (started 1m ago)",
        some [.entry ⟨0, .start, "old", "/p"⟩]) := by
  rw [c5_start_rejected_when_active "new" "/p" 60000
    (some [.entry ⟨0, .start, "old", "/p"⟩]) ⟨0, .start, "old", "/p"⟩
    (by decide) (by decide)]
  decide

/-- C6: `stop` with no unmatched start answers `No active session to stop`
and leaves the log unchanged, for any number of repeated invocations —
including when a stop entry is the first-ever event of the log. -/
theorem c6_stop_without_start_idempotent (message currentDir : String)
    (now : Int) (log : Option (List LogLine))
    (hm : ¬ jsTrim message = "") (h : getActiveSession log currentDir = none) :
    stopExecute message currentDir now log = ("No active session to stop", log) ∧
    ∀ n : Nat, (fun l => (stopExecute message currentDir now l).2)^[n] log = log := by
  have h1 : stopExecute message currentDir now log
      = ("No active session to stop", log) := by
    simp only [stopExecute, if_neg hm, h]
  refine ⟨h1, ?_⟩
  intro n
  induction n with
  | zero => rfl
  | succ n ih =>
    rw [Function.iterate_succ_apply]
    show (fun l => (stopExecute message currentDir now l).2)^[n]
      ((stopExecute message currentDir now log).2) = log
    rw [h1]
    exact ih

/-- Witness for `c6_stop_without_start_idempotent`: a stop against a log whose
first-ever event is itself a stop entry. -/
theorem c6_stop_without_start_idempotent_witness :
    stopExecute "done" "/p" 0 (some [.entry ⟨0, .stop, "x", "/p"⟩])
      = ("No active session to stop", some [.entry ⟨0, .stop, "x", "/p"⟩]) :=
  (c6_stop_without_start_idempotent "done" "/p" 0
    (some [.entry ⟨0, .stop, "x", "/p"⟩]) (by decide) (by decide)).1

/-- C7: a message that trims to empty makes `start` and `stop` answer their
validation error before consulting any session state (the answer and the
untouched log are the same for every log state). -/
theorem c7_empty_message_validation (message currentDir : String) (now : Int)
    (log : Option (List LogLine)) (hm : jsTrim message = "") :
    startExecute message currentDir now log
        = ("Error: Message is required for start command", log) ∧
    stopExecute message currentDir now log
        = ("Error: Message is required for stop command", log) := by
  constructor
  · simp [startExecute, hm]
  · simp [stopExecute, hm]

/-- Witness for `c7_empty_message_validation`: a whitespace-only message. -/
theorem c7_empty_message_validation_witness :
    startExecute "  " "/p" 0 none
        = ("Error: Message is required for start command", none) ∧
    stopExecute "  " "/p" 0 none
        = ("Error: Message is required for stop command", none) :=
  c7_empty_message_validation "  " "/p" 0 none (by decide)

/-- C10: a present but falsy `orphanedSessionThreshold` (`0`, `null`,
`false`) makes `status` behave exactly as if the key were absent, so the
default of 240 applies and a stored `0` never fires the warning on every
session. -/
theorem c10_falsy_threshold_default (v : JsValue) (hv : jsTruthy v = false)
    (log : Option (List LogLine)) (p : String) (now : Int) :
    statusExecute p (.doc (.cons "orphanedSessionThreshold" v .nil)) log now
      = statusExecute p .absent log now := by
  simp [statusExecute, loadSettings, lookupKey, jsOr, hv]

/-- Witness for `c10_falsy_threshold_default`: a stored threshold of `0` on a
300-minute session reports the same as an absent settings file. -/
theorem c10_falsy_threshold_default_witness :
    statusExecute "/p"
        (.doc (.cons "orphanedSessionThreshold" (JsValue.num 0) .nil))
        (some [.entry ⟨0, .start, "w", "/p"⟩]) (300 * 60000)
      = statusExecute "/p" .absent
          (some [.entry ⟨0, .start, "w", "/p"⟩]) (300 * 60000) :=
  c10_falsy_threshold_default (JsValue.num 0) (by decide)
    (some [.entry ⟨0, .start, "w", "/p"⟩]) "/p" (300 * 60000)

end Devlog
